import Mathlib

/-!
Verification development for the MMT peer-to-peer file distribution engine.

The Python sources are shallowly embedded: byte strings become `List ℕ`
(each entry a byte value), Python `str` values that only carry ASCII data
become Lean `String` or `List ℕ` of byte values, sets become `Finset ℕ`,
and the mutable attributes of a Python object become fields of a Lean
structure, with each method returning its result together with the updated
structure.  External library calls (`hashlib.sha1`, `random.choice`) are
modelled as explicit parameters, so every theorem quantifies over the
possible behaviours of the library.  File-system writes are assumed to
succeed; the on-disk piece files themselves are not tracked, only the
in-memory accounting that the methods mutate.
-/

deriving instance DecidableEq for Except

namespace MMT

/-- Byte values of an ASCII string literal, used to write concrete inputs. -/
def strBytes (s : String) : List ℕ := s.data.map Char.toNat

/-! ### PieceManager (src/node/transfer.py, class PieceManager)

Tracked attributes of the Python object.  `files` keeps only the byte
lengths of the payload files (the only attribute of a file entry that the
embedded methods read).  `repo_dir` and the lock are I/O artefacts and are
not tracked. -/

structure PieceManager where
  info_hash : String
  piece_length : ℕ
  piece_count : ℕ
  files : List ℕ
  have_pieces : List Bool
  requested_pieces : Finset ℕ
  piece_hashes : List String
  bytes_downloaded : ℕ
  bytes_uploaded : ℕ
deriving DecidableEq

namespace PieceManager

/-- `PieceManager.__init__`: `have_pieces` starts as the result of the
`_check_existing_data` disk scan (an arbitrary boolean list, passed in as
`existing`), `requested_pieces` starts empty, `piece_hashes` starts as the
empty list (it is only filled later by `set_piece_hashes`). -/
def init (info_hash : String) (piece_length piece_count : ℕ) (files : List ℕ)
    (existing : List Bool) (existing_bytes : ℕ) : PieceManager :=
  { info_hash := info_hash
    piece_length := piece_length
    piece_count := piece_count
    files := files
    have_pieces := existing
    requested_pieces := ∅
    piece_hashes := []
    bytes_downloaded := existing_bytes
    bytes_uploaded := 0 }

/-- `PieceManager.set_piece_hashes`. -/
def set_piece_hashes (pm : PieceManager) (hashes : List String) : PieceManager :=
  { pm with piece_hashes := hashes }

/-- Total payload size `sum(f['length'] for f in self.files)`. -/
def total_bytes (pm : PieceManager) : ℕ := pm.files.sum

/-- Expected length of the final piece, as defined by the specification:
`total_bytes - (P-1) * piece_length`. -/
def lastPieceLength (pm : PieceManager) : ℕ :=
  pm.total_bytes - (pm.piece_count - 1) * pm.piece_length

/-- `PieceManager.verify_piece`.  The SHA-1 hex digest computed by
`hashlib.sha1(data).hexdigest()` is modelled by the explicit parameter
`sha1hex`.  With no hashes available (empty list or index out of range)
the method returns `True` after a logged warning. -/
def verify_piece (sha1hex : List ℕ → String) (pm : PieceManager)
    (piece_index : ℕ) (data : List ℕ) : Bool :=
  if pm.piece_hashes.isEmpty || pm.piece_hashes.length ≤ piece_index then
    true
  else
    sha1hex data == pm.piece_hashes.getD piece_index ""

/-- `PieceManager.receive_piece`, returning the Python result together with
the updated manager.  The temporary-file write is assumed to succeed.  When
`piece_index` is out of range for `have_pieces`, the Python assignment
`self.have_pieces[piece_index] = True` raises `IndexError`, which the
enclosing `except` turns into `return False` with the tracked state
unchanged.  `_assemble_files` only touches the file system, never the
tracked attributes, so it does not appear. -/
def receive_piece (sha1hex : List ℕ → String) (pm : PieceManager)
    (piece_index : ℕ) (data : List ℕ) : Bool × PieceManager :=
  if pm.piece_length < data.length then
    (false, pm)
  else if verify_piece sha1hex pm piece_index data = false then
    (false, { pm with requested_pieces := pm.requested_pieces.erase piece_index })
  else if piece_index < pm.have_pieces.length then
    (true, { pm with
              have_pieces := pm.have_pieces.set piece_index true
              requested_pieces := pm.requested_pieces.erase piece_index
              bytes_downloaded := pm.bytes_downloaded + data.length })
  else
    (false, pm)

/-- The candidate list built inside `get_next_request`: pieces we do not
have, have not requested, and the peer has. -/
def candidatePieces (pm : PieceManager) (peer_has_pieces : List Bool) : List ℕ :=
  (List.range pm.piece_count).filter fun i =>
    !pm.have_pieces.getD i false
      && !(decide (i ∈ pm.requested_pieces))
      && peer_has_pieces.getD i false

/-- `PieceManager.get_rarest_piece`.  `random.choice(candidates)` picks the
entry at a uniformly random index; the index drawn is modelled by the
explicit parameter `pick`, reduced modulo the list length. -/
def get_rarest_piece (pick : ℕ) (candidates : List ℕ) : Option ℕ :=
  if candidates.isEmpty then none
  else some (candidates.getD (pick % candidates.length) 0)

/-- `PieceManager.get_next_request`, returning the chosen index (or `none`)
together with the updated manager.  The final fallback to `candidates[0]`
is kept even though `get_rarest_piece` never returns `none` on a non-empty
list. -/
def get_next_request (pick : ℕ) (pm : PieceManager)
    (peer_has_pieces : List Bool) : Option ℕ × PieceManager :=
  let candidates := candidatePieces pm peer_has_pieces
  if candidates.isEmpty then (none, pm)
  else
    match get_rarest_piece pick candidates with
    | some rarest_piece =>
        (some rarest_piece,
         { pm with requested_pieces := insert rarest_piece pm.requested_pieces })
    | none =>
        let piece_index := candidates.headD 0
        (some piece_index,
         { pm with requested_pieces := insert piece_index pm.requested_pieces })

/-- The disjointness invariant relating the two piece-status containers: no
piece is simultaneously recorded as held and as outstanding. -/
def disjointInv (pm : PieceManager) : Prop :=
  ∀ i, pm.have_pieces.getD i false = true → i ∉ pm.requested_pieces

instance (pm : PieceManager) : Decidable (disjointInv pm) := by
  have h : disjointInv pm ↔
      ∀ i ∈ Finset.range pm.have_pieces.length,
        pm.have_pieces.getD i false = true → i ∉ pm.requested_pieces := by
    constructor
    · intro h i _ hi
      exact h i hi
    · intro h i hi
      by_cases hlt : i < pm.have_pieces.length
      · exact h i (Finset.mem_range.mpr hlt) hi
      · rw [List.getD_eq_default] at hi
        · exact absurd hi (by simp)
        · omega
  exact decidable_of_iff _ h.symm

end PieceManager

/-- Modelled from the spec: the rarity count of §4.3 — the number of
currently-connected peer sessions whose availability map includes piece
`i`.  No such rarity index exists anywhere in the source; this definition
only serves to state what the specification demands of the selection
policy. -/
def holderCount (sessions : List (List Bool)) (i : ℕ) : ℕ :=
  (sessions.filter fun availability => availability.getD i false).length

/-! ### Handshake (src/node/transfer.py, PeerConnection._perform_handshake) -/

/-- Hexadecimal digit character used by Python's `bytes.hex()` (lowercase). -/
def hexDigit (n : ℕ) : Char :=
  if n < 10 then Char.ofNat (48 + n) else Char.ofNat (87 + n)

/-- `bytes.hex()`: two lowercase hex characters per byte. -/
def bytesToHex (bs : List ℕ) : String :=
  ⟨bs.flatMap fun b => [hexDigit (b / 16), hexDigit (b % 16)]⟩

/-- The protocol string `"BitTorrent protocol"` as bytes (19 bytes). -/
def pstrBytes : List ℕ := strBytes "BitTorrent protocol"

/-- The 68-byte handshake frame built and sent by `_perform_handshake`:
`bytes([len(pstr)]) + pstr.encode() + reserved + info_hash_bytes + peer_id_bytes`. -/
def handshakeBytes (info_hash_bytes peer_id_bytes : List ℕ) : List ℕ :=
  [pstrBytes.length] ++ pstrBytes ++ List.replicate 8 0
    ++ info_hash_bytes ++ peer_id_bytes

/-- The validation `_perform_handshake` applies to a fully read response
frame (the socket read of `len(handshake)` bytes is assumed to have
delivered `response`): the only check is
`response[28:48].hex() == self.info_hash`; on success the raw
`response[48:68]` peer-id bytes are produced (Python decodes them with
`errors='replace'`, which never fails).  The received `pstrlen` and `pstr`
bytes are never examined. -/
def performHandshakeCheck (info_hash : String) (response : List ℕ) :
    Except String (List ℕ) :=
  if bytesToHex ((response.drop 28).take 20) ≠ info_hash then
    Except.error "Peer responded with wrong info_hash"
  else
    Except.ok ((response.drop 48).take 20)

/-! ### PeerConnection receive-loop state (src/node/transfer.py) -/

/-- The session state mutated by the receive loop.  The request queue is a
`deque` of `(piece_index, begin, length)` triples. -/
structure PeerConnection where
  peer_choking : Bool
  am_choking : Bool
  peer_interested : Bool
  am_interested : Bool
  peer_bitfield : List Bool
  request_queue : List (ℕ × ℕ × ℕ)
  conn_bytes_downloaded : ℕ
  conn_bytes_uploaded : ℕ
deriving DecidableEq

namespace PeerConnection

/-- `PeerConnection.__init__`: choked both ways, no interest, all-false
bitfield of length `piece_count`, empty request queue. -/
def init (piece_count : ℕ) : PeerConnection :=
  { peer_choking := true
    am_choking := true
    peer_interested := false
    am_interested := false
    peer_bitfield := List.replicate piece_count false
    request_queue := []
    conn_bytes_downloaded := 0
    conn_bytes_uploaded := 0 }

/-- The receive-loop dispatch arm for `msg_id == 0` (choke), lines 779-781:
the single statement `self.peer_choking = True`. -/
def recvChoke (pc : PeerConnection) : PeerConnection :=
  { pc with peer_choking := true }

/-- The receive-loop dispatch arm for `msg_id == 1` (unchoke). -/
def recvUnchoke (pc : PeerConnection) : PeerConnection :=
  { pc with peer_choking := false }

/-- `PeerConnection._process_bitfield`.  For each piece index, the bit in
big-endian bit order is tested and, when set, the bitfield entry is set to
`True`; an unset bit leaves the previous entry untouched.  The `break` on
`byte_index >= len(payload)` is rendered per index: once one index has its
byte out of range, all later indices do too, so leaving each such entry
unchanged is the same as stopping the loop. -/
def processBitfield (pc : PeerConnection) (payload : List ℕ) : PeerConnection :=
  let piece_count := pc.peer_bitfield.length
  let expected_length := (piece_count + 7) / 8
  if payload.length < expected_length then pc
  else
    { pc with
        peer_bitfield := (List.range piece_count).map fun i =>
          if payload.length ≤ i / 8 then pc.peer_bitfield.getD i false
          else if (payload.getD (i / 8) 0 >>> (7 - i % 8)) &&& 1 = 1 then true
          else pc.peer_bitfield.getD i false }

/-- The receive-loop dispatch arm for `msg_id == 5` (bitfield), lines
802-810: run `_process_bitfield`, then if the peer has any piece we still
need and `am_interested` is not yet set, send `interested` (which sets
`am_interested`; the send is assumed to succeed). -/
def recvBitfield (have_pieces : List Bool) (pc : PeerConnection)
    (payload : List ℕ) : PeerConnection :=
  let pc2 := processBitfield pc payload
  if (pc2.peer_bitfield.enum.any fun p =>
        p.2 && !(have_pieces.getD p.1 false)) && !pc2.am_interested then
    { pc2 with am_interested := true }
  else pc2

end PeerConnection

/-! ### Tracker peer lists (src/tracker/state_manager.py, src/node/peer.py) -/

/-- A peer entry as stored by the tracker and as sent in dictionary mode. -/
structure PeerDict where
  peer_id : String
  ip : String
  port : ℕ
  left : ℕ
deriving DecidableEq

/-- The `peers` field of an announce response: either the packed compact
byte string or the list of peer dictionaries. -/
inductive PeersField where
  | compactBytes (bs : List ℕ)
  | dicts (ps : List PeerDict)
deriving DecidableEq

/-- Whether a `peers` field is in dictionary form. -/
def PeersField.isDicts : PeersField → Bool
  | PeersField.dicts _ => true
  | PeersField.compactBytes _ => false

/-- Parse a decimal numeral, used by the dotted-quad model of
`socket.inet_aton`. -/
def decNat? (s : List Char) : Option ℕ :=
  if s.isEmpty || s.any (fun c => !c.isDigit) then none
  else some (s.foldl (fun acc c => 10 * acc + (c.toNat - 48)) 0)

/-- Split a character list on a separator character (model of `str.split`). -/
def splitOnChar (sep : Char) : List Char → List (List Char)
  | [] => [[]]
  | c :: rest =>
      let r := splitOnChar sep rest
      if c = sep then [] :: r
      else (c :: r.headD []) :: r.tail

/-- `socket.inet_aton` restricted to the standard dotted-quad form: four
decimal components, each at most 255, producing the four address bytes.
(The C library also accepts shorter forms; the tracker only ever feeds it
dotted-quad strings supplied by announcing peers.) -/
def inet_aton (ip : String) : Option (List ℕ) :=
  match (splitOnChar '.' ip.data).map (fun part => decNat? part) with
  | [some a, some b, some c, some d] =>
      if a ≤ 255 && b ≤ 255 && c ≤ 255 && d ≤ 255 then some [a, b, c, d]
      else none
  | _ => none

/-- `struct.pack("!H", port)`: two big-endian bytes; ports outside 16 bits
raise, which `manage_peer` turns into skipping the peer. -/
def packPortBE (port : ℕ) : Option (List ℕ) :=
  if port < 65536 then some [port / 256, port % 256] else none

/-- The compact-mode encoding loop of `manage_peer` (lines 73-85 of
src/tracker/state_manager.py): for each peer, 4 address bytes followed by
2 big-endian port bytes; a peer whose conversion raises is skipped. -/
def compactPeersEncoding (peers : List PeerDict) : List ℕ :=
  peers.flatMap fun p =>
    match inet_aton p.ip, packPortBE p.port with
    | some ip_bytes, some port_bytes => ip_bytes ++ port_bytes
    | _, _ => []

/-- The peer-list handling of `Peer._announce_to_tracker` (lines 329-381 of
src/node/peer.py) on a 200 response: `return data.get("peers", [])` — the
`peers` field is returned exactly as received, with the empty dictionary
list as the default when the field is missing.  No decoding of the compact
byte form is performed anywhere in the client. -/
def announcePeersResult (resp_peers : Option PeersField) : PeersField :=
  resp_peers.getD (PeersField.dicts [])

/-- Modelled from the spec: decoding of the compact `peers` byte string
(missing from the client source, which the spec's Tracker Client section
and end-to-end scenario 6 require to be decoded): consecutive 6-byte
groups, 4 IPv4 address bytes followed by a 2-byte big-endian port, each
yielding a peer with a dotted-quad `ip` string and the decoded `port`. -/
def decodeCompactSpec : List ℕ → List (String × ℕ)
  | a :: b :: c :: d :: p1 :: p2 :: rest =>
      (String.intercalate "." ([a, b, c, d].map toString),
        256 * p1 + p2) :: decodeCompactSpec rest
  | _ => []

/-! ### Magnet parsing (src/node/magnet_utils.py)

Python query strings are modelled at byte level (`List ℕ`); `urllib`'s
`unquote` with UTF-8/`errors='replace'` agrees with byte-level
percent-decoding on all ASCII content, which is the only content the
magnet code ever compares against. -/

/-- Split a byte list on a separator byte (`str.split` with one-byte
separator, as `parse_qsl` does with `'&'`). -/
def splitOnByte (sep : ℕ) : List ℕ → List (List ℕ)
  | [] => [[]]
  | b :: rest =>
      let r := splitOnByte sep rest
      if b = sep then [] :: r
      else (b :: r.headD []) :: r.tail

/-- Split on the first occurrence of a separator byte, when present
(`str.split('=', 1)` producing two parts). -/
def splitFirstByte (sep : ℕ) : List ℕ → Option (List ℕ × List ℕ)
  | [] => none
  | b :: rest =>
      if b = sep then some ([], rest)
      else (splitFirstByte sep rest).map fun q => (b :: q.1, q.2)

/-- Value of an ASCII hex digit byte, as recognised by `urllib.parse.unquote`. -/
def hexVal (b : ℕ) : Option ℕ :=
  if 48 ≤ b ∧ b ≤ 57 then some (b - 48)
  else if 97 ≤ b ∧ b ≤ 102 then some (b - 87)
  else if 65 ≤ b ∧ b ≤ 70 then some (b - 55)
  else none

/-- Percent-decoding at byte level (`urllib.parse.unquote_to_bytes`): a
`%` followed by two hex digits becomes one byte; an ill-formed escape is
left as literal bytes. -/
def unquoteBytes : List ℕ → List ℕ
  | 37 :: a :: b :: rest =>
      match hexVal a, hexVal b with
      | some x, some y => (16 * x + y) :: unquoteBytes rest
      | _, _ => 37 :: unquoteBytes (a :: b :: rest)
  | c :: rest => c :: unquoteBytes rest
  | [] => []

/-- `+` to space then percent-decode, as `parse_qsl` applies to each name
and value. -/
def unquotePlus (l : List ℕ) : List ℕ :=
  unquoteBytes (l.map fun b => if b = 43 then 32 else b)

/-- `urllib.parse.parse_qsl` with default options (blank values dropped,
non-strict): split the query on `&`, drop empty fragments and fragments
without `=` or with an empty value, and percent-decode names and values. -/
def parseQsl (qs : List ℕ) : List (List ℕ × List ℕ) :=
  (splitOnByte 38 qs).filterMap fun name_value =>
    if name_value.isEmpty then none
    else
      match splitFirstByte 61 name_value with
      | none => none
      | some (name, value) =>
          if value.isEmpty then none
          else some (unquotePlus name, unquotePlus value)

/-- `parse_qs(query)[key]`: all values whose decoded name equals `key`, in
order; the key is in the `parse_qs` dictionary exactly when this list is
non-empty. -/
def qsParams (qs : List ℕ) (key : List ℕ) : List (List ℕ) :=
  (parseQsl qs).filterMap fun p => if p.1 = key then some p.2 else none

/-- Python `str.lower` restricted to bytes: ASCII letters are lowered. -/
def lowerByte (b : ℕ) : ℕ := if 65 ≤ b ∧ b ≤ 90 then b + 32 else b

/-- Result dictionary of a successful `parse_magnet`. -/
structure MagnetResult where
  magnet_info_hash : List ℕ
  name : Option (List ℕ)
  trackers : Option (List (List ℕ))
deriving DecidableEq

/-- `parse_magnet` (src/node/magnet_utils.py): reject URLs without the
literal `magnet:?` lead-in; parse the rest as a query string; take the
first `xt` value with the `urn:btih:` lead-in and lower-case the remainder
as the info hash; `dn` gives the first name when present, `tr` the tracker
list when present; raise when no suitable `xt` exists. -/
def parse_magnet (magnet_url : List ℕ) : Except String MagnetResult :=
  if ¬ (strBytes "magnet:?").isPrefixOf magnet_url then
    Except.error "Invalid magnet URL format"
  else
    let query := magnet_url.drop 8
    match (qsParams query (strBytes "xt")).find?
        (fun xt => (strBytes "urn:btih:").isPrefixOf xt) with
    | none => Except.error "Missing info_hash in magnet URL"
    | some xt =>
        Except.ok
          { magnet_info_hash := (xt.drop 9).map lowerByte
            name := (qsParams query (strBytes "dn")).head?
            trackers :=
              let trs := qsParams query (strBytes "tr")
              if trs.isEmpty then none else some trs }

end MMT

open MMT

/-! ### Claim C6: choke handling -/

/-- C6 counterexample: dispatching a choke message (id 0) on a session
with one outstanding request sets `peer_choking` but leaves the request
queue exactly as it was — it does not become empty, contradicting the
claim that all outstanding requests are cancelled. -/
theorem choke_does_not_cancel_requests :
    (PeerConnection.recvChoke
      { PeerConnection.init 1 with
        peer_choking := false
        request_queue := [(0, 0, 16384)] }).peer_choking = true ∧
    (PeerConnection.recvChoke
      { PeerConnection.init 1 with
        peer_choking := false
        request_queue := [(0, 0, 16384)] }).request_queue = [(0, 0, 16384)] ∧
    ¬ (PeerConnection.recvChoke
      { PeerConnection.init 1 with
        peer_choking := false
        request_queue := [(0, 0, 16384)] }).request_queue = [] := by
  decide

/-- C6 as amended: the choke dispatch arm sets `peer_choking` to true and
changes nothing else; in particular the queue of outstanding
`(piece, offset, length)` requests is left untouched. -/
theorem choke_sets_flag_and_keeps_queue (pc : PeerConnection) :
    PeerConnection.recvChoke pc = { pc with peer_choking := true } ∧
    (PeerConnection.recvChoke pc).request_queue = pc.request_queue ∧
    (PeerConnection.recvChoke pc).peer_choking = true :=
  ⟨rfl, rfl, rfl⟩

/-! ### Claim C8: tracker peer-list encodings -/

/-- C8 counterexample: on the compact byte string `7F 00 00 01 1A E1` the
client's announce handling returns the byte string itself, not the decoded
list of peers — even though the spec-modelled decoder maps exactly those
bytes to the single peer 127.0.0.1:6881. -/
theorem announce_returns_compact_bytes_undecoded :
    announcePeersResult (some (PeersField.compactBytes [127, 0, 0, 1, 26, 225])) =
      PeersField.compactBytes [127, 0, 0, 1, 26, 225] ∧
    (announcePeersResult
      (some (PeersField.compactBytes [127, 0, 0, 1, 26, 225]))).isDicts = false ∧
    decodeCompactSpec [127, 0, 0, 1, 26, 225] = [("127.0.0.1", 6881)] := by
  decide

/-- C8 as amended: `_announce_to_tracker` returns the tracker's `peers`
field unchanged (dictionary lists pass through, compact byte strings come
back undecoded, a missing field yields the empty list), while the tracker
side does encode compact peers as 6-byte groups of 4 IPv4 bytes followed
by a 2-byte big-endian port, mapping 127.0.0.1:6881 to `7F 00 00 01 1A E1`. -/
theorem announce_passthrough_and_tracker_encoding :
    (∀ pf : PeersField, announcePeersResult (some pf) = pf) ∧
    announcePeersResult none = PeersField.dicts [] ∧
    compactPeersEncoding [⟨"p1", "127.0.0.1", 6881, 0⟩] = [127, 0, 0, 1, 26, 225] := by
  refine ⟨fun pf => rfl, rfl, by decide⟩

/-! ### Claim C5: handshake validation -/

/-- C5 counterexample: a 68-byte handshake response whose `pstrlen` byte is
0 (not 19) and whose protocol-string bytes are garbage passes the
handshake check, because only bytes 28..48 (the fingerprint) are ever
compared; the claim that a `pstrlen`/`pstr` mismatch fails the session is
false. -/
theorem handshake_accepts_wrong_pstr :
    (performHandshakeCheck (bytesToHex (List.replicate 20 0))
        ([0] ++ List.replicate 19 1 ++ List.replicate 8 0 ++
          List.replicate 20 0 ++ List.replicate 20 65)).isOk = true ∧
    ([0] ++ List.replicate 19 1 ++ List.replicate 8 0 ++
      List.replicate 20 0 ++ List.replicate 20 65).headD 0 ≠ pstrBytes.length ∧
    (([0] ++ List.replicate 19 1 ++ List.replicate 8 0 ++
      List.replicate 20 0 ++ List.replicate 20 65).drop 1).take 19 ≠ pstrBytes := by
  decide

/-! ### Claim C7: bitfield processing -/

/-- C7 counterexample: with one piece, a prior availability of `[true]`
and a bitfield payload `0x00` of sufficient length, the availability entry
stays `true` although the payload's bit for piece 0 is clear — the map is
OR-ed into, not replaced as the claim states. -/
theorem bitfield_not_replaced :
    (PeerConnection.recvBitfield [false]
      { PeerConnection.init 1 with peer_bitfield := [true] } [0]).peer_bitfield =
        [true] ∧
    ((1 + 7) / 8 : ℕ) ≤ ([0] : List ℕ).length ∧
    (([0] : List ℕ).getD 0 0 >>> (7 - 0 % 8)) &&& 1 = 0 := by
  decide

/-! ### Claim C3: selection policy -/

/-- C3 counterexample: with candidates 0 and 1, two connected sessions
both holding piece 1 and neither holding piece 0, one possible draw of the
unconditional `random.choice` returns piece 1, whose holder count 2 is not
minimal (candidate 0 has count 0); no rarity computation or configurable
fallback exists in the code. -/
theorem selection_returns_non_rarest :
    PieceManager.get_rarest_piece 1 [0, 1] = some 1 ∧
    holderCount [[false, true], [false, true]] 1 = 2 ∧
    holderCount [[false, true], [false, true]] 0 = 0 := by
  decide

/-! ### Claim C4: final-piece length handling -/

/-- C4 counterexample: a two-piece torrent (piece_length 4, total 6 bytes,
so the final piece must have 2 bytes) with no piece hashes set accepts a
1-byte final piece: `receive_piece` returns `True` and marks the piece,
although the claim requires rejection with unchanged state for any length
other than `last_piece_length`. -/
theorem receive_piece_accepts_wrong_final_length :
    PieceManager.lastPieceLength
      { info_hash := ""
        piece_length := 4
        piece_count := 2
        files := [6]
        have_pieces := [true, false]
        requested_pieces := {1}
        piece_hashes := []
        bytes_downloaded := 4
        bytes_uploaded := 0 } = 2 ∧
    (PieceManager.receive_piece (fun _ => "")
      { info_hash := ""
        piece_length := 4
        piece_count := 2
        files := [6]
        have_pieces := [true, false]
        requested_pieces := {1}
        piece_hashes := []
        bytes_downloaded := 4
        bytes_uploaded := 0 }
      1 [0]).1 = true ∧
    (PieceManager.receive_piece (fun _ => "")
      { info_hash := ""
        piece_length := 4
        piece_count := 2
        files := [6]
        have_pieces := [true, false]
        requested_pieces := {1}
        piece_hashes := []
        bytes_downloaded := 4
        bytes_uploaded := 0 }
      1 [0]).2.have_pieces = [true, true] := by
  decide

/-- C5 as amended: a session is Established iff the hex encoding of bytes
28..48 of the received handshake frame equals the local info hash; the
outcome depends on no other byte of the frame (so `pstrlen`, `pstr` and
`peer_id` are never validated — a differing `peer_id` only produces a
warning in `connect`). -/
theorem handshake_checks_only_info_hash (info_hash : String) (r1 r2 : List ℕ)
    (h : (r1.drop 28).take 20 = (r2.drop 28).take 20) :
    ((performHandshakeCheck info_hash r1).isOk = true ↔
      bytesToHex ((r1.drop 28).take 20) = info_hash) ∧
    (performHandshakeCheck info_hash r1).isOk =
      (performHandshakeCheck info_hash r2).isOk := by
  have key : ∀ r : List ℕ, (performHandshakeCheck info_hash r).isOk = true ↔
      bytesToHex ((r.drop 28).take 20) = info_hash := by
    intro r
    unfold performHandshakeCheck
    split_ifs with hc
    · exact iff_of_false (by simp [Except.isOk, Except.toBool]) hc
    · exact iff_of_true rfl (not_not.mp hc)
  refine ⟨key r1, ?_⟩
  have h1 := key r1
  have h2 := key r2
  rw [h] at h1
  cases hb1 : (performHandshakeCheck info_hash r1).isOk <;>
    cases hb2 : (performHandshakeCheck info_hash r2).isOk <;>
      simp_all

/-- Witness for the amended C5 theorem at a concrete pair of responses. -/
theorem handshake_checks_only_info_hash_witness :
    ((([0, 0] : List ℕ).drop 28).take 20 = (([] : List ℕ).drop 28).take 20) ∧
    (((performHandshakeCheck "" [0, 0]).isOk = true ↔
        bytesToHex ((([0, 0] : List ℕ).drop 28).take 20) = "") ∧
      (performHandshakeCheck "" [0, 0]).isOk = (performHandshakeCheck "" []).isOk) :=
  ⟨by decide, handshake_checks_only_info_hash "" [0, 0] [] (by decide)⟩

/-- C7 as amended: when the payload is long enough, the bit of the payload
for each piece (big-endian bit order) is OR-ed into the availability map:
an entry becomes true when its bit is set and otherwise keeps its previous
value — the map is accumulated into, not replaced.  (Since a fresh session
starts all-false, the first bitfield received does equal the decoded
payload.) -/
theorem bitfield_bits_are_ored (have_pieces : List Bool) (pc : PeerConnection)
    (payload : List ℕ) (i : ℕ)
    (hlen : (pc.peer_bitfield.length + 7) / 8 ≤ payload.length)
    (hi : i < pc.peer_bitfield.length) :
    (PeerConnection.recvBitfield have_pieces pc payload).peer_bitfield.getD i false =
      (pc.peer_bitfield.getD i false ||
        decide ((payload.getD (i / 8) 0 >>> (7 - i % 8)) &&& 1 = 1)) := by
  have hbf : (PeerConnection.recvBitfield have_pieces pc payload).peer_bitfield =
      (PeerConnection.processBitfield pc payload).peer_bitfield := by
    by_cases hcond :
        (((pc.processBitfield payload).peer_bitfield.enum.any fun p =>
            p.2 && !have_pieces.getD p.1 false) &&
          !(pc.processBitfield payload).am_interested) = true
    · simp only [PeerConnection.recvBitfield]
      rw [if_pos hcond]
    · simp only [PeerConnection.recvBitfield]
      rw [if_neg hcond]
  rw [hbf]
  unfold PeerConnection.processBitfield
  rw [if_neg (by omega)]
  have hdiv : i / 8 < payload.length := by
    have h1 : i / 8 < (pc.peer_bitfield.length + 7) / 8 := by
      have h2 : i + 8 ≤ pc.peer_bitfield.length + 7 := by omega
      have h3 : (i + 8) / 8 ≤ (pc.peer_bitfield.length + 7) / 8 :=
        Nat.div_le_div_right h2
      omega
    omega
  have hget : ((List.range pc.peer_bitfield.length).map fun j =>
      if payload.length ≤ j / 8 then pc.peer_bitfield.getD j false
      else if (payload.getD (j / 8) 0 >>> (7 - j % 8)) &&& 1 = 1 then true
      else pc.peer_bitfield.getD j false).getD i false =
      (if payload.length ≤ i / 8 then pc.peer_bitfield.getD i false
       else if (payload.getD (i / 8) 0 >>> (7 - i % 8)) &&& 1 = 1 then true
       else pc.peer_bitfield.getD i false) := by
    rw [List.getD_eq_getElem?_getD, List.getElem?_map]
    simp [List.getElem?_range, hi]
  rw [hget, if_neg (by omega)]
  by_cases hbit : (payload.getD (i / 8) 0 >>> (7 - i % 8)) &&& 1 = 1 <;>
    simp [hbit, Bool.or_comm]

/-- Witness for the amended C7 theorem: one piece, prior availability
true, payload byte 0 — the entry stays true (OR of true with the clear
bit). -/
theorem bitfield_bits_are_ored_witness :
    ((([true] : List Bool).length + 7) / 8 ≤ ([0] : List ℕ).length) ∧
    (0 < ([true] : List Bool).length) ∧
    (PeerConnection.recvBitfield [false]
      { PeerConnection.init 1 with peer_bitfield := [true] } [0]).peer_bitfield.getD 0 false =
      (([true] : List Bool).getD 0 false ||
        decide ((([0] : List ℕ).getD (0 / 8) 0 >>> (7 - 0 % 8)) &&& 1 = 1)) :=
  ⟨by decide, by decide,
    bitfield_bits_are_ored [false]
      { PeerConnection.init 1 with peer_bitfield := [true] } [0] 0
      (by decide) (by decide)⟩

/-- C3 as amended: the selection policy's `get_rarest_piece` returns a
uniformly random element of the non-empty candidate list — every candidate
is a possible outcome — and nothing more: no holder counts are consulted
and the random substitution is unconditional and silent rather than a
runtime-configurable fallback. -/
theorem selection_is_uniform_choice (pick : ℕ) (candidates : List ℕ)
    (h : candidates ≠ []) :
    (∃ c ∈ candidates, PieceManager.get_rarest_piece pick candidates = some c) ∧
    (∀ c ∈ candidates, ∃ k, PieceManager.get_rarest_piece k candidates = some c) := by
  have hlen : 0 < candidates.length := List.length_pos.mpr h
  have hne : candidates.isEmpty = false := by
    simp [List.isEmpty_iff, h]
  constructor
  · have hmod : pick % candidates.length < candidates.length := Nat.mod_lt _ hlen
    refine ⟨candidates.getD (pick % candidates.length) 0, ?_, ?_⟩
    · rw [List.getD_eq_getElem _ _ hmod]
      exact List.getElem_mem hmod
    · simp [PieceManager.get_rarest_piece, hne]
  · intro c hc
    obtain ⟨n, hn, hcn⟩ := List.getElem_of_mem hc
    refine ⟨n, ?_⟩
    simp only [PieceManager.get_rarest_piece, hne, Bool.false_eq_true, if_false]
    rw [Nat.mod_eq_of_lt hn, List.getD_eq_getElem _ _ hn, hcn]

/-- Witness for the amended C3 theorem on the candidate list `[5]`. -/
theorem selection_is_uniform_choice_witness :
    (([5] : List ℕ) ≠ []) ∧
    ((∃ c ∈ ([5] : List ℕ), PieceManager.get_rarest_piece 0 [5] = some c) ∧
      (∀ c ∈ ([5] : List ℕ), ∃ k, PieceManager.get_rarest_piece k [5] = some c)) :=
  ⟨by decide, selection_is_uniform_choice 0 [5] (by decide)⟩

/-- C4 as amended: `receive_piece` never compares the data length with the
final piece's expected length.  Data longer than `piece_length` is
rejected with no state change; when no piece hashes are set, any in-range
piece of length at most `piece_length` (whatever its relation to
`last_piece_length`) is accepted; and when hash verification fails, the
piece is rejected but its index is removed from `requested_pieces` rather
than all state being left unchanged. -/
theorem receive_piece_length_policy (sha1hex : List ℕ → String)
    (pm : PieceManager) (i : ℕ) (data : List ℕ) :
    (pm.piece_length < data.length →
      PieceManager.receive_piece sha1hex pm i data = (false, pm)) ∧
    (pm.piece_hashes = [] → data.length ≤ pm.piece_length →
      i < pm.have_pieces.length →
      (PieceManager.receive_piece sha1hex pm i data).1 = true) ∧
    (data.length ≤ pm.piece_length →
      PieceManager.verify_piece sha1hex pm i data = false →
      PieceManager.receive_piece sha1hex pm i data =
        (false, { pm with requested_pieces := pm.requested_pieces.erase i })) := by
  refine ⟨?_, ?_, ?_⟩
  · intro hlong
    unfold PieceManager.receive_piece
    rw [if_pos hlong]
  · intro hnone hshort hrange
    have hver : PieceManager.verify_piece sha1hex pm i data = true := by
      unfold PieceManager.verify_piece
      rw [if_pos]
      simp [hnone]
    unfold PieceManager.receive_piece
    rw [if_neg (by omega), if_neg (by simp [hver]), if_pos hrange]
  · intro hshort hver
    unfold PieceManager.receive_piece
    rw [if_neg (by omega), if_pos hver]

/-- Witness for the amended C4 theorem: the undersized final piece of the
counterexample torrent is accepted when no hashes are set. -/
theorem receive_piece_length_policy_witness :
    (PieceManager.receive_piece (fun _ => "")
      { info_hash := ""
        piece_length := 4
        piece_count := 2
        files := [6]
        have_pieces := [true, false]
        requested_pieces := {1}
        piece_hashes := []
        bytes_downloaded := 4
        bytes_uploaded := 0 }
      1 [0]).1 = true :=
  (receive_piece_length_policy (fun _ => "")
      { info_hash := ""
        piece_length := 4
        piece_count := 2
        files := [6]
        have_pieces := [true, false]
        requested_pieces := {1}
        piece_hashes := []
        bytes_downloaded := 4
        bytes_uploaded := 0 }
      1 [0]).2.1 rfl (by decide) (by decide)

/-! ### Claim C1: hash verification on receive -/

/-- C1 counterexample: with hashes set and a mismatching digest, data
longer than `piece_length` is rejected before the hash is consulted and
with no state change at all — index 0 stays in `requested_pieces`,
contradicting the claim that a differing digest always removes it. -/
theorem receive_piece_oversized_mismatch_keeps_request :
    ((fun _ : List ℕ => "bb") [0, 0] ≠
      (["aa"] : List String).getD 0 "") ∧
    (PieceManager.receive_piece (fun _ => "bb")
      { info_hash := ""
        piece_length := 1
        piece_count := 1
        files := [1]
        have_pieces := [false]
        requested_pieces := {0}
        piece_hashes := ["aa"]
        bytes_downloaded := 0
        bytes_uploaded := 0 }
      0 [0, 0]).1 = false ∧
    (0 : ℕ) ∈ (PieceManager.receive_piece (fun _ => "bb")
      { info_hash := ""
        piece_length := 1
        piece_count := 1
        files := [1]
        have_pieces := [false]
        requested_pieces := {0}
        piece_hashes := ["aa"]
        bytes_downloaded := 0
        bytes_uploaded := 0 }
      0 [0, 0]).2.requested_pieces := by
  decide

/-- C1 as amended: with piece hashes set and an entry for `i`,
`receive_piece` returns `True` only when the digest of the data equals
`piece_hashes[i]`; and for data of length at most `piece_length` whose
digest differs, it returns `False`, removes `i` from `requested_pieces`
and leaves `have_pieces` untouched.  (Oversized data is rejected before
hashing with no state change.) -/
theorem receive_piece_hash_gate (sha1hex : List ℕ → String)
    (pm : PieceManager) (i : ℕ) (data : List ℕ)
    (hset : pm.piece_hashes ≠ []) (hentry : i < pm.piece_hashes.length) :
    ((PieceManager.receive_piece sha1hex pm i data).1 = true →
        sha1hex data = pm.piece_hashes.getD i "") ∧
    (data.length ≤ pm.piece_length →
      sha1hex data ≠ pm.piece_hashes.getD i "" →
      PieceManager.receive_piece sha1hex pm i data =
        (false, { pm with requested_pieces := pm.requested_pieces.erase i }) ∧
      (PieceManager.receive_piece sha1hex pm i data).2.have_pieces =
        pm.have_pieces) := by
  have hv : PieceManager.verify_piece sha1hex pm i data =
      (sha1hex data == pm.piece_hashes.getD i "") := by
    unfold PieceManager.verify_piece
    rw [if_neg]
    simp only [Bool.or_eq_true, List.isEmpty_iff, decide_eq_true_eq]
    push_neg
    exact ⟨hset, by omega⟩
  constructor
  · intro htrue
    by_contra hne
    have hfalse : (sha1hex data == pm.piece_hashes.getD i "") = false :=
      beq_eq_false_iff_ne.mpr hne
    unfold PieceManager.receive_piece at htrue
    rw [hv] at htrue
    by_cases h1 : pm.piece_length < data.length
    · rw [if_pos h1] at htrue
      simp at htrue
    · rw [if_neg h1, if_pos hfalse] at htrue
      simp at htrue
  · intro hshort hne
    have hfalse : (sha1hex data == pm.piece_hashes.getD i "") = false :=
      beq_eq_false_iff_ne.mpr hne
    have hres : PieceManager.receive_piece sha1hex pm i data =
        (false, { pm with requested_pieces := pm.requested_pieces.erase i }) := by
      unfold PieceManager.receive_piece
      rw [hv, if_neg (by omega), if_pos hfalse]
    exact ⟨hres, by rw [hres]⟩

/-- Witness for the amended C1 theorem: one piece with hash `"aa"` and a
digest function returning `"bb"` on a 1-byte block. -/
theorem receive_piece_hash_gate_witness :
    ((["aa"] : List String) ≠ [] ∧ 0 < (["aa"] : List String).length) ∧
    (((PieceManager.receive_piece (fun _ => "bb")
        { info_hash := ""
          piece_length := 1
          piece_count := 1
          files := [1]
          have_pieces := [false]
          requested_pieces := {0}
          piece_hashes := ["aa"]
          bytes_downloaded := 0
          bytes_uploaded := 0 }
        0 [7]).1 = true →
      (fun _ : List ℕ => "bb") [7] = (["aa"] : List String).getD 0 "") ∧
    (([7] : List ℕ).length ≤ 1 →
      (fun _ : List ℕ => "bb") [7] ≠ (["aa"] : List String).getD 0 "" →
      PieceManager.receive_piece (fun _ => "bb")
        { info_hash := ""
          piece_length := 1
          piece_count := 1
          files := [1]
          have_pieces := [false]
          requested_pieces := {0}
          piece_hashes := ["aa"]
          bytes_downloaded := 0
          bytes_uploaded := 0 }
        0 [7] =
        (false, { info_hash := ""
                  piece_length := 1
                  piece_count := 1
                  files := [1]
                  have_pieces := [false]
                  requested_pieces := Finset.erase {0} 0
                  piece_hashes := ["aa"]
                  bytes_downloaded := 0
                  bytes_uploaded := 0 }) ∧
      (PieceManager.receive_piece (fun _ => "bb")
        { info_hash := ""
          piece_length := 1
          piece_count := 1
          files := [1]
          have_pieces := [false]
          requested_pieces := {0}
          piece_hashes := ["aa"]
          bytes_downloaded := 0
          bytes_uploaded := 0 }
        0 [7]).2.have_pieces = [false])) :=
  ⟨⟨by decide, by decide⟩,
    receive_piece_hash_gate (fun _ => "bb")
      { info_hash := ""
        piece_length := 1
        piece_count := 1
        files := [1]
        have_pieces := [false]
        requested_pieces := {0}
        piece_hashes := ["aa"]
        bytes_downloaded := 0
        bytes_uploaded := 0 }
      0 [7] (by decide) (by decide)⟩

/-! ### Claim C2: get_next_request -/

/-- Membership in the candidate list built by `get_next_request`. -/
theorem mem_candidatePieces {pm : PieceManager} {ph : List Bool} {i : ℕ} :
    i ∈ PieceManager.candidatePieces pm ph ↔
      i < pm.piece_count ∧ pm.have_pieces.getD i false = false ∧
      i ∉ pm.requested_pieces ∧ ph.getD i false = true := by
  simp only [PieceManager.candidatePieces, List.mem_filter, List.mem_range,
    Bool.and_eq_true, Bool.not_eq_true', decide_eq_false_iff_not]
  tauto

/-- `get_next_request` either rejects on an empty candidate list or picks a
member of the candidate list and records it as requested. -/
theorem get_next_request_cases (pick : ℕ) (pm : PieceManager) (ph : List Bool) :
    (PieceManager.get_next_request pick pm ph = (none, pm) ∧
      PieceManager.candidatePieces pm ph = []) ∨
    (∃ j ∈ PieceManager.candidatePieces pm ph,
      PieceManager.get_next_request pick pm ph =
        (some j, { pm with requested_pieces := insert j pm.requested_pieces })) := by
  by_cases hempty : (PieceManager.candidatePieces pm ph).isEmpty = true
  · left
    refine ⟨?_, List.isEmpty_iff.mp hempty⟩
    simp only [PieceManager.get_next_request]
    rw [if_pos hempty]
  · right
    have hne : (PieceManager.candidatePieces pm ph).isEmpty = false := by
      revert hempty
      cases (PieceManager.candidatePieces pm ph).isEmpty <;> simp
    have hlen : 0 < (PieceManager.candidatePieces pm ph).length := by
      cases hc : PieceManager.candidatePieces pm ph with
      | nil => rw [hc] at hne; simp at hne
      | cons a l => simp [hc]
    have hmod : pick % (PieceManager.candidatePieces pm ph).length <
        (PieceManager.candidatePieces pm ph).length := Nat.mod_lt _ hlen
    refine ⟨(PieceManager.candidatePieces pm ph).getD
      (pick % (PieceManager.candidatePieces pm ph).length) 0, ?_, ?_⟩
    · rw [List.getD_eq_getElem _ _ hmod]
      exact List.getElem_mem hmod
    · have hrar : PieceManager.get_rarest_piece pick
          (PieceManager.candidatePieces pm ph) =
          some ((PieceManager.candidatePieces pm ph).getD
            (pick % (PieceManager.candidatePieces pm ph).length) 0) := by
        unfold PieceManager.get_rarest_piece
        rw [if_neg (by simp [hne])]
      simp only [PieceManager.get_next_request]
      rw [if_neg (by simp [hne]), hrar]

/-- C2: with an availability list covering all pieces, `get_next_request`
returns `none` exactly when no piece is simultaneously not held, not
requested and available from the peer; and when it returns some index `j`,
that index satisfies all three conditions and the only state change is the
insertion of `j` into `requested_pieces`. -/
theorem get_next_request_correct (pick : ℕ) (pm : PieceManager)
    (peer_has_pieces : List Bool)
    (hlen : pm.piece_count ≤ peer_has_pieces.length) :
    ((PieceManager.get_next_request pick pm peer_has_pieces).1 = none ↔
      ¬ ∃ i, i < pm.piece_count ∧ pm.have_pieces.getD i false = false ∧
        i ∉ pm.requested_pieces ∧ peer_has_pieces.getD i false = true) ∧
    ((PieceManager.get_next_request pick pm peer_has_pieces).1 = none →
      (PieceManager.get_next_request pick pm peer_has_pieces).2 = pm) ∧
    (∀ j, (PieceManager.get_next_request pick pm peer_has_pieces).1 = some j →
      pm.have_pieces.getD j false = false ∧ j ∉ pm.requested_pieces ∧
      peer_has_pieces.getD j false = true ∧
      (PieceManager.get_next_request pick pm peer_has_pieces).2 =
        { pm with requested_pieces := insert j pm.requested_pieces }) := by
  rcases get_next_request_cases pick pm peer_has_pieces with
    ⟨hres, hnil⟩ | ⟨j, hjmem, hres⟩
  · have hnoex : ¬ ∃ i, i < pm.piece_count ∧ pm.have_pieces.getD i false = false ∧
        i ∉ pm.requested_pieces ∧ peer_has_pieces.getD i false = true := by
      rintro ⟨i, h1, h2, h3, h4⟩
      have : i ∈ PieceManager.candidatePieces pm peer_has_pieces :=
        mem_candidatePieces.mpr ⟨h1, h2, h3, h4⟩
      rw [hnil] at this
      exact absurd this (List.not_mem_nil i)
    refine ⟨?_, ?_, ?_⟩
    · rw [hres]
      exact iff_of_true rfl hnoex
    · intro _
      rw [hres]
    · intro j hj
      rw [hres] at hj
      exact absurd hj (by simp)
  · obtain ⟨h1, h2, h3, h4⟩ := mem_candidatePieces.mp hjmem
    refine ⟨?_, ?_, ?_⟩
    · rw [hres]
      refine iff_of_false (by simp) ?_
      rw [not_not]
      exact ⟨j, h1, h2, h3, h4⟩
    · intro hnone
      rw [hres] at hnone
      exact absurd hnone (by simp)
    · intro k hk
      rw [hres] at hk
      have hkj : k = j := by
        have := hk
        simp at this
        omega
      subst hkj
      exact ⟨h2, h3, h4, by rw [hres]⟩

/-- Witness for the C2 theorem: a two-piece manager holding piece 0, with
the peer offering both pieces, hands out piece 1. -/
theorem get_next_request_correct_witness :
    ((2 : ℕ) ≤ ([true, true] : List Bool).length) ∧
    (((PieceManager.get_next_request 0
        { info_hash := ""
          piece_length := 4
          piece_count := 2
          files := [8]
          have_pieces := [true, false]
          requested_pieces := ∅
          piece_hashes := []
          bytes_downloaded := 0
          bytes_uploaded := 0 }
        [true, true]).1 = none ↔
      ¬ ∃ i, i < 2 ∧ ([true, false] : List Bool).getD i false = false ∧
        i ∉ (∅ : Finset ℕ) ∧ ([true, true] : List Bool).getD i false = true) ∧
    ((PieceManager.get_next_request 0
        { info_hash := ""
          piece_length := 4
          piece_count := 2
          files := [8]
          have_pieces := [true, false]
          requested_pieces := ∅
          piece_hashes := []
          bytes_downloaded := 0
          bytes_uploaded := 0 }
        [true, true]).1 = none →
      (PieceManager.get_next_request 0
        { info_hash := ""
          piece_length := 4
          piece_count := 2
          files := [8]
          have_pieces := [true, false]
          requested_pieces := ∅
          piece_hashes := []
          bytes_downloaded := 0
          bytes_uploaded := 0 }
        [true, true]).2 =
        { info_hash := ""
          piece_length := 4
          piece_count := 2
          files := [8]
          have_pieces := [true, false]
          requested_pieces := ∅
          piece_hashes := []
          bytes_downloaded := 0
          bytes_uploaded := 0 }) ∧
    (∀ j, (PieceManager.get_next_request 0
        { info_hash := ""
          piece_length := 4
          piece_count := 2
          files := [8]
          have_pieces := [true, false]
          requested_pieces := ∅
          piece_hashes := []
          bytes_downloaded := 0
          bytes_uploaded := 0 }
        [true, true]).1 = some j →
      ([true, false] : List Bool).getD j false = false ∧ j ∉ (∅ : Finset ℕ) ∧
      ([true, true] : List Bool).getD j false = true ∧
      (PieceManager.get_next_request 0
        { info_hash := ""
          piece_length := 4
          piece_count := 2
          files := [8]
          have_pieces := [true, false]
          requested_pieces := ∅
          piece_hashes := []
          bytes_downloaded := 0
          bytes_uploaded := 0 }
        [true, true]).2 =
        { info_hash := ""
          piece_length := 4
          piece_count := 2
          files := [8]
          have_pieces := [true, false]
          requested_pieces := insert j ∅
          piece_hashes := []
          bytes_downloaded := 0
          bytes_uploaded := 0 })) :=
  ⟨by decide,
    get_next_request_correct 0
      { info_hash := ""
        piece_length := 4
        piece_count := 2
        files := [8]
        have_pieces := [true, false]
        requested_pieces := ∅
        piece_hashes := []
        bytes_downloaded := 0
        bytes_uploaded := 0 }
      [true, true] (by decide)⟩

/-! ### Claim C10: have/requested disjointness invariant -/

/-- C10: no piece index is ever both held and outstanding — the invariant
holds for a freshly initialised manager (whose requested set is empty) and
is preserved by `get_next_request` (which only marks pieces whose
`have_pieces` entry is false) and by `receive_piece` (which removes the
index from `requested_pieces` whenever it marks `have_pieces` or rejects a
mismatching hash). -/
theorem have_requested_disjoint
    (ih : String) (plen pcount : ℕ) (files : List ℕ)
    (existing : List Bool) (eb : ℕ)
    (sha1hex : List ℕ → String) (pick : ℕ) (pm : PieceManager)
    (ph : List Bool) (i : ℕ) (data : List ℕ)
    (hinv : PieceManager.disjointInv pm) :
    PieceManager.disjointInv (PieceManager.init ih plen pcount files existing eb) ∧
    PieceManager.disjointInv (PieceManager.get_next_request pick pm ph).2 ∧
    PieceManager.disjointInv (PieceManager.receive_piece sha1hex pm i data).2 := by
  refine ⟨?_, ?_, ?_⟩
  · intro k _
    simp [PieceManager.init]
  · rcases get_next_request_cases pick pm ph with ⟨hres, _⟩ | ⟨j, hjmem, hres⟩
    · rw [hres]
      exact hinv
    · rw [hres]
      intro k hk
      simp only [Finset.mem_insert, not_or]
      have hjfalse : pm.have_pieces.getD j false = false :=
        (mem_candidatePieces.mp hjmem).2.1
      constructor
      · rintro rfl
        rw [hjfalse] at hk
        exact absurd hk (by simp)
      · exact hinv k hk
  · unfold PieceManager.receive_piece
    split_ifs with h1 h2 h3
    · exact hinv
    · intro k hk
      simp only
      rw [Finset.mem_erase, not_and_or]
      right
      exact hinv k hk
    · intro k hk
      simp only at hk ⊢
      rw [Finset.mem_erase, not_and_or]
      by_cases hki : k = i
      · left
        rw [hki, not_not]
      · right
        have hkold : pm.have_pieces.getD k false = true := by
          rw [List.getD_eq_getElem?_getD, List.getElem?_set_ne (fun h => hki h.symm)]
            at hk
          rw [List.getD_eq_getElem?_getD]
          exact hk
        exact hinv k hkold
    · exact hinv

/-- Witness for the C10 theorem on a concrete one-piece manager whose
single piece is held and not requested. -/
theorem have_requested_disjoint_witness :
    PieceManager.disjointInv
      { info_hash := ""
        piece_length := 4
        piece_count := 1
        files := [4]
        have_pieces := [true]
        requested_pieces := ∅
        piece_hashes := []
        bytes_downloaded := 4
        bytes_uploaded := 0 } ∧
    (PieceManager.disjointInv (PieceManager.init "" 4 1 [4] [false] 0) ∧
      PieceManager.disjointInv (PieceManager.get_next_request 0
        { info_hash := ""
          piece_length := 4
          piece_count := 1
          files := [4]
          have_pieces := [true]
          requested_pieces := ∅
          piece_hashes := []
          bytes_downloaded := 4
          bytes_uploaded := 0 } [true]).2 ∧
      PieceManager.disjointInv (PieceManager.receive_piece (fun _ => "")
        { info_hash := ""
          piece_length := 4
          piece_count := 1
          files := [4]
          have_pieces := [true]
          requested_pieces := ∅
          piece_hashes := []
          bytes_downloaded := 4
          bytes_uploaded := 0 } 0 [9]).2) :=
  ⟨by decide,
    have_requested_disjoint "" 4 1 [4] [false] 0 (fun _ => "") 0
      { info_hash := ""
        piece_length := 4
        piece_count := 1
        files := [4]
        have_pieces := [true]
        requested_pieces := ∅
        piece_hashes := []
        bytes_downloaded := 4
        bytes_uploaded := 0 }
      [true] 0 [9] (by decide)⟩

/-! ### Claim C9: magnet URL parsing -/

/-- C9: `parse_magnet` fails exactly when the URL does not start with
`magnet:?` or the query string carries no `xt` value with the `urn:btih:`
lead-in; on success the result holds the lower-cased remainder of the
first such `xt` value as the fingerprint, the first `dn` value as the name
when one is present, and the `tr` value list when non-empty. -/
theorem parse_magnet_correct (magnet_url : List ℕ) :
    ((parse_magnet magnet_url).isOk = false ↔
      ((strBytes "magnet:?").isPrefixOf magnet_url = false ∨
        ∀ xt ∈ qsParams (magnet_url.drop 8) (strBytes "xt"),
          (strBytes "urn:btih:").isPrefixOf xt = false)) ∧
    (∀ r, parse_magnet magnet_url = Except.ok r →
      (∃ xt ∈ qsParams (magnet_url.drop 8) (strBytes "xt"),
        (strBytes "urn:btih:").isPrefixOf xt = true ∧
        r.magnet_info_hash = (xt.drop 9).map lowerByte) ∧
      r.name = (qsParams (magnet_url.drop 8) (strBytes "dn")).head? ∧
      r.trackers = (if (qsParams (magnet_url.drop 8) (strBytes "tr")).isEmpty
        then none else some (qsParams (magnet_url.drop 8) (strBytes "tr")))) := by
  by_cases hpre : (strBytes "magnet:?").isPrefixOf magnet_url = true
  case neg =>
    have hres : parse_magnet magnet_url =
        Except.error "Invalid magnet URL format" := by
      unfold parse_magnet
      rw [if_pos]
      exact hpre
    constructor
    · refine iff_of_true (by rw [hres]; rfl) (Or.inl ?_)
      revert hpre
      cases (strBytes "magnet:?").isPrefixOf magnet_url <;> simp
    · intro r hr
      rw [hres] at hr
      exact absurd hr (by simp)
  case pos =>
    cases hfind : (qsParams (magnet_url.drop 8) (strBytes "xt")).find?
        (fun xt => (strBytes "urn:btih:").isPrefixOf xt) with
    | none =>
      have hres : parse_magnet magnet_url =
          Except.error "Missing info_hash in magnet URL" := by
        unfold parse_magnet
        rw [if_neg (not_not_intro hpre)]
        simp only [hfind]
      constructor
      · refine iff_of_true (by rw [hres]; rfl) (Or.inr ?_)
        intro xt hxt
        have hnp := List.find?_eq_none.mp hfind xt hxt
        revert hnp
        cases (strBytes "urn:btih:").isPrefixOf xt <;> simp
      · intro r hr
        rw [hres] at hr
        exact absurd hr (by simp)
    | some xt =>
      have hmem := List.mem_of_find?_eq_some hfind
      have hpred : (strBytes "urn:btih:").isPrefixOf xt = true :=
        List.find?_some hfind
      have hres : parse_magnet magnet_url = Except.ok
          { magnet_info_hash := (xt.drop 9).map lowerByte
            name := (qsParams (magnet_url.drop 8) (strBytes "dn")).head?
            trackers :=
              if (qsParams (magnet_url.drop 8) (strBytes "tr")).isEmpty then none
              else some (qsParams (magnet_url.drop 8) (strBytes "tr")) } := by
        unfold parse_magnet
        rw [if_neg (not_not_intro hpre)]
        simp only [hfind]
      constructor
      · refine iff_of_false (by rw [hres]; simp [Except.isOk, Except.toBool]) ?_
        rintro (hl | hr)
        · rw [hpre] at hl
          exact absurd hl (by simp)
        · have := hr xt hmem
          rw [hpred] at this
          exact absurd this (by simp)
      · intro r hr
        rw [hres] at hr
        injection hr with h
        subst h
        exact ⟨⟨xt, hmem, hpred, rfl⟩, rfl, rfl⟩

/-- Witness for the C9 theorem on a concrete magnet URL carrying `xt`,
`dn` and one `tr` value. -/
theorem parse_magnet_correct_witness :
    (parse_magnet (strBytes "magnet:?xt=urn:btih:AB&dn=n&tr=t") =
      Except.ok { magnet_info_hash := strBytes "ab"
                  name := some (strBytes "n")
                  trackers := some [strBytes "t"] }) ∧
    ((∃ xt ∈ qsParams ((strBytes "magnet:?xt=urn:btih:AB&dn=n&tr=t").drop 8)
        (strBytes "xt"),
        (strBytes "urn:btih:").isPrefixOf xt = true ∧
        (MagnetResult.magnet_info_hash
          { magnet_info_hash := strBytes "ab"
            name := some (strBytes "n")
            trackers := some [strBytes "t"] }) = (xt.drop 9).map lowerByte) ∧
      (MagnetResult.name
        { magnet_info_hash := strBytes "ab"
          name := some (strBytes "n")
          trackers := some [strBytes "t"] }) =
        (qsParams ((strBytes "magnet:?xt=urn:btih:AB&dn=n&tr=t").drop 8)
          (strBytes "dn")).head? ∧
      (MagnetResult.trackers
        { magnet_info_hash := strBytes "ab"
          name := some (strBytes "n")
          trackers := some [strBytes "t"] }) =
        (if (qsParams ((strBytes "magnet:?xt=urn:btih:AB&dn=n&tr=t").drop 8)
            (strBytes "tr")).isEmpty
         then none
         else some (qsParams ((strBytes "magnet:?xt=urn:btih:AB&dn=n&tr=t").drop 8)
            (strBytes "tr")))) :=
  ⟨by decide,
    (parse_magnet_correct (strBytes "magnet:?xt=urn:btih:AB&dn=n&tr=t")).2
      { magnet_info_hash := strBytes "ab"
        name := some (strBytes "n")
        trackers := some [strBytes "t"] }
      (by decide)⟩
